import Mathlib

/-!
Verification development for the py2saber saber controller
(`src/py2saber/py2saber.py`, the `Saber_Controller` class and its helpers).

The serial link is modelled as a `Transport`: a script of pending read
results (each the result of one `readline_async` call, which may deliver a
byte string or raise) together with the flat sequence of bytes written so
far.  Python byte strings are `List Nat` (one entry per byte); text is
`List Char` obtained by decoding bytes; fallible code returns `Except`.
Every definition is translated from the source file; doc comments name the
Python function a definition embeds.
-/

namespace PySaber

/-- Python `bytes`: a list of byte values. -/
abbrev Bytes := List Nat

/-- Encode an ASCII string literal as a byte list (`str.encode`). -/
def ascii (s : String) : Bytes := s.data.map Char.toNat

/-- Decode a byte string to characters (`bytes.decode`, ASCII fragment). -/
def decode (b : Bytes) : List Char := b.map Char.ofNat

/-- Errors raised by the controller, mirroring the exception classes of
`py2saber.py` plus generic read failures from the serial layer. -/
inductive PyErr where
  | noAnimaSaber
  | animaNotReady
  | notEnoughFreeSpace (msg : String)
  | animaFileWrite (msg : String)
  | invalidSaberResponse (msg : String)
  | invalidSoundEffect (msg : String)
  | valueError
  | readError
  deriving DecidableEq, Repr

/-- The serial connection: a script of pending `readline_async` results and
the bytes written so far. -/
structure Transport where
  reads : List (Except Unit Bytes)
  written : Bytes
  deriving Repr

/-- Append bytes to the wire (`Serial.write`). -/
def Transport.write (t : Transport) (b : Bytes) : Transport :=
  { t with written := t.written ++ b }

/-- `Saber_Controller.read_line`: one `readline_async` call.  Pops the next
scripted result; an exhausted script yields the timeout behaviour of
pyserial (an empty byte string). -/
def read_line (t : Transport) : Except Unit Bytes × Transport :=
  match t.reads with
  | [] => (.ok [], t)
  | r :: rs => (r, { t with reads := rs })

/-- `Saber_Controller._CHUNK_SIZE`. -/
def CHUNK_SIZE : Nat := 128

/-- Split a byte string into chunks of `n + 1` bytes (the slice loop
`cmd[pos:pos+self._CHUNK_SIZE]` of `send_command`; the chunk size is
positive, so it is carried as a successor). -/
def chunksOf (n : Nat) : Bytes → List Bytes
  | [] => []
  | b :: bs => (b :: bs).take (n + 1) :: chunksOf n (bs.drop n)
  termination_by l => l.length
  decreasing_by
    simp only [List.length_drop, List.length_cons]
    omega

/-- The command with the `\n` terminator appended when missing. -/
def withNL (cmd : Bytes) : Bytes :=
  if cmd.getLast? = some 10 then cmd else cmd ++ [10]

/-- `Saber_Controller.send_command`: append the `\n` terminator when
missing, then write the command, whole if it fits in one chunk and
otherwise chunk by chunk (`_CHUNK_SIZE = 128 = 127 + 1`). -/
def send_command (cmd : Bytes) (t : Transport) : Transport :=
  if (withNL cmd).length ≤ CHUNK_SIZE then t.write (withNL cmd)
  else (chunksOf 127 (withNL cmd)).foldl Transport.write t

/-- `Saber_Controller.saber_is_ready`: send `WR?`, read one line, true iff
the line is exactly `OK, Write Ready\n`; any exception yields `false`. -/
def saber_is_ready (t : Transport) : Bool × Transport :=
  let t1 := send_command (ascii "WR?") t
  match read_line t1 with
  | (.ok r, t2) => (r = ascii "OK, Write Ready\n", t2)
  | (.error _, t2) => (false, t2)

/-! ### Character classes and Python text helpers (ASCII fragment) -/

/-- Python regex `\w` on the ASCII device output. -/
def isWordChar (c : Char) : Bool := c.isAlpha || c.isDigit || c = '_'

/-- Python regex `\s` / `str.strip` whitespace on the ASCII device
output: the six common whitespace characters plus the separator control
characters U+001C through U+001F, which Python's str-pattern `\s` and
`str.strip` also treat as whitespace. -/
def isSpaceChar (c : Char) : Bool :=
  c = ' ' || c = '\t' || c = '\n' || c = '\r' || c = '\x0b' || c = '\x0c' ||
    c = '\x1c' || c = '\x1d' || c = '\x1e' || c = '\x1f'

/-- Python regex `\d` on the ASCII device output. -/
def isDigitChar (c : Char) : Bool := c.isDigit

/-- `str.strip()`: drop leading and trailing whitespace. -/
def pyStrip (l : List Char) : List Char :=
  ((l.dropWhile isSpaceChar).reverse.dropWhile isSpaceChar).reverse

/-- Numeric value of a digit string. -/
def digitsToNat (l : List Char) : Nat :=
  l.foldl (fun a c => 10 * a + (c.toNat - 48)) 0

/-- Python `int(str)`: optional surrounding whitespace, optional sign,
one or more decimal digits; anything else raises `ValueError` (`none`). -/
def parsePyInt (l : List Char) : Option Int :=
  match pyStrip l with
  | '-' :: ds =>
    if ds ≠ [] ∧ ds.all isDigitChar then some (-(digitsToNat ds : Int)) else none
  | '+' :: ds =>
    if ds ≠ [] ∧ ds.all isDigitChar then some (digitsToNat ds : Int) else none
  | ds =>
    if ds ≠ [] ∧ ds.all isDigitChar then some (digitsToNat ds : Int) else none

/-! ### The `LIST?` line pattern

`list_files_on_saber` parses the accumulated listing with
`re.findall(r"^(\w+\.RAW)\s+(\d+)$", text, re.MULTILINE)`.  The pattern is
embedded directly: each quantifier here is deterministic (no backtracking
can change the outcome, because the character classes at each boundary are
disjoint), so greedy maximal runs reproduce the regex semantics.  In
MULTILINE mode `^` matches at the start of the text or after a newline and
`$` matches at the end of the text or before a newline; `\s` also matches
the newline itself, so a single match may span several physical lines. -/

/-- Try to match `(\w+\.RAW)\s+(\d+)$` at the current position, returning
the two capture groups and the unconsumed remainder (which starts with a
newline or is empty, by the `$` anchor). -/
def matchAt (l : List Char) : Option (List Char × List Char × List Char) :=
  let w := l.takeWhile isWordChar
  let r1 := l.dropWhile isWordChar
  if w = [] then none
  else if r1.take 4 ≠ ['.', 'R', 'A', 'W'] then none
  else
    let r2 := r1.drop 4
    let sp := r2.takeWhile isSpaceChar
    let r3 := r2.dropWhile isSpaceChar
    if sp = [] then none
    else
      let ds := r3.takeWhile isDigitChar
      let r4 := r3.dropWhile isDigitChar
      if ds = [] then none
      else if r4 = [] ∨ r4.head? = some '\n' then
        some (w ++ ['.', 'R', 'A', 'W'], ds, r4)
      else none

/-- `re.findall` for the pattern above: scan left to right, attempting the
anchored pattern at the start of the text and after every newline; on a
match emit the capture groups and resume at the match end.  The recursion
is fuelled so that it is structural (every step consumes at least one
character, so any fuel above the text length is enough). -/
def findAllAux : Nat → List Char → Bool → List (List Char × List Char)
  | 0, _, _ => []
  | _ + 1, [], _ => []
  | fuel + 1, c :: cs, atStart =>
    if atStart then
      match matchAt (c :: cs) with
      | some (w, d, rest) => (w, d) :: findAllAux fuel rest false
      | none => findAllAux fuel cs (c = '\n')
    else findAllAux fuel cs (c = '\n')

/-- The scan with enough fuel for the whole text. -/
def findAll (l : List Char) (atStart : Bool) : List (List Char × List Char) :=
  findAllAux (l.length + 1) l atStart

/-- `list_files_on_saber`'s per-match action: `file_dict[name] = int(size)`.
Python `dict` assignment keeps the original position of an existing key and
overwrites its value, else appends. -/
def dictInsert (m : List (String × Int)) (k : String) (v : Int) :
    List (String × Int) :=
  if m.any (fun p => p.1 = k) then
    m.map (fun p => if p.1 = k then (k, v) else p)
  else m ++ [(k, v)]

/-- The parsing phase of `list_files_on_saber`: run the regex over the
decoded listing and fold the matches into the file dictionary. -/
def parse_file_list (text : List Char) : List (String × Int) :=
  (findAll text true).foldl
    (fun m e => dictInsert m (String.mk e.1) (digitsToNat e.2 : Int)) []

/-- A single physical line (no embedded newline) that matches the listing
pattern in its entirety: a well-formed `NAME.RAW <size>` entry. -/
def lineMatches (line : List Char) : Bool :=
  match matchAt line with
  | some (_, _, []) => true
  | _ => false

/-- A line consisting of optional whitespace followed only by digits —
the only line shape that can complete a match begun on an earlier
physical line (because `\s+` may cross the newline). -/
def tailFormLine (line : List Char) : Bool :=
  let r := line.dropWhile isSpaceChar
  !r.isEmpty && r.all isDigitChar

/-- Noise in the sense of the listing parser: a line that neither matches
the pattern itself nor is of whitespace-digits form. -/
def noiseLine (line : List Char) : Bool :=
  !(lineMatches line) && !(tailFormLine line)

/-- The capture groups of a well-formed line. -/
def lineCapture (line : List Char) : Option (List Char × List Char) :=
  match matchAt line with
  | some (w, d, []) => some (w, d)
  | _ => none

/-- The dictionary entry a well-formed line contributes. -/
def lineEntry (line : List Char) : Option (String × Int) :=
  (lineCapture line).map (fun e => (String.mk e.1, (digitsToNat e.2 : Int)))

/-- Reassemble physical lines into the text the device sent (each line is
newline-terminated on the wire). -/
def joinLines (L : List (List Char)) : List Char :=
  (L.map (fun l => l ++ ['\n'])).flatten

/-- The byte string `read_line` delivers for one physical line. -/
def encodeLine (l : List Char) : Bytes := l.map Char.toNat ++ [10]

/-! ### Protocol engine queries -/

/-- `Saber_Controller.get_free_space`: send `FREE?`, read one line, and
parse `int(response.decode().strip()[5:])`. -/
def get_free_space (t : Transport) : Except PyErr Int × Transport :=
  let t1 := send_command (ascii "FREE?") t
  match read_line t1 with
  | (.error _, t2) => (.error .readError, t2)
  | (.ok r, t2) =>
    match parsePyInt ((pyStrip (decode r)).drop 5) with
    | none => (.error .valueError, t2)
    | some n => (.ok n, t2)

/-- `Saber_Controller.get_saber_info`: require readiness, then query `V?`
and `S?` and strip the two-character prefixes. -/
def get_saber_info (t : Transport) :
    Except PyErr (List Char × List Char) × Transport :=
  match saber_is_ready t with
  | (false, t1) => (.error .animaNotReady, t1)
  | (true, t1) =>
    let t2 := send_command (ascii "V?") t1
    match read_line t2 with
    | (.error _, t3) => (.error .readError, t3)
    | (.ok rv, t3) =>
      if rv = [] ∨ ¬ (ascii "V=").isPrefixOf rv then
        (.error (.invalidSaberResponse "V?"), t3)
      else
        let version := (pyStrip (decode rv)).drop 2
        let t4 := send_command (ascii "S?") t3
        match read_line t4 with
        | (.error _, t5) => (.error .readError, t5)
        | (.ok rs, t5) =>
          if rs = [] ∨ ¬ (ascii "S=").isPrefixOf rs then
            (.error (.invalidSaberResponse "S?"), t5)
          else
            let serial := (pyStrip (decode rs)).drop 2
            (.ok (version, serial), t5)

/-- `Saber_Controller.anima_is_NXT`: true iff the firmware version string
starts with `NXT_`. -/
def anima_is_NXT (t : Transport) : Except PyErr Bool × Transport :=
  match get_saber_info t with
  | (.error e, t1) => (.error e, t1)
  | (.ok info, t1) => (.ok (info.1.take 4 = ('N' :: 'X' :: 'T' :: ['_'])), t1)

/-- The accumulation loop of `list_files_on_saber_as_bytes`: keep reading
lines until one ends with the ETX-then-LF pair `b"\x03\n"`.  A script that
runs dry would make the Python loop spin on empty reads forever; the model
returns `readError` there instead. -/
def read_list_go (acc : Bytes) :
    List (Except Unit Bytes) → Except PyErr Bytes × List (Except Unit Bytes)
  | [] => (.error .readError, [])
  | r :: rs =>
    match r with
    | .error _ => (.error .readError, rs)
    | .ok line =>
      if [3, 10].isSuffixOf line then (.ok (acc ++ line), rs)
      else read_list_go (acc ++ line) rs

/-- The read loop applied to a transport. -/
def read_list_loop (acc : Bytes) (t : Transport) :
    Except PyErr Bytes × Transport :=
  match read_list_go acc t.reads with
  | (res, rs) => (res, { t with reads := rs })

/-- `Saber_Controller.list_files_on_saber_as_bytes`: require readiness,
send `LIST?`, accumulate lines until the ETX-LF terminator. -/
def list_files_on_saber_as_bytes (t : Transport) :
    Except PyErr Bytes × Transport :=
  match saber_is_ready t with
  | (false, t1) => (.error .animaNotReady, t1)
  | (true, t1) =>
    let t2 := send_command (ascii "LIST?") t1
    read_list_loop [] t2

/-- `Saber_Controller.list_files_on_saber`: decode the raw listing and
parse it into the filename-to-size dictionary. -/
def list_files_on_saber (t : Transport) :
    Except PyErr (List (String × Int)) × Transport :=
  match list_files_on_saber_as_bytes t with
  | (.error e, t1) => (.error e, t1)
  | (.ok raw, t1) => (.ok (parse_file_list (decode raw)), t1)

/-! ### Port discovery (`get_anima_ports`, `port_is_anima`, `initialize`) -/

/-- One entry of `serial.tools.list_ports.comports()`: the fields
`lp.grep` searches (device, description) plus the USB vendor and product
IDs from which pyserial renders the `hwid` string. -/
structure PortInfo where
  device : String
  description : String
  vid : Nat
  pid : Nat
  deriving DecidableEq, Repr

/-- One uppercase hex digit. -/
def hexDigit (n : Nat) : Char :=
  if n < 10 then Char.ofNat (48 + n) else Char.ofNat (55 + n)

/-- pyserial renders vendor/product IDs as four uppercase hex digits. -/
def hex4 (n : Nat) : String :=
  String.mk [hexDigit (n / 4096 % 16), hexDigit (n / 256 % 16),
    hexDigit (n / 16 % 16), hexDigit (n % 16)]

/-- The `hwid` string pyserial reports for a USB serial port. -/
def hwid_string (p : PortInfo) : String :=
  "USB VID:PID=" ++ hex4 p.vid ++ ":" ++ hex4 p.pid

/-- Substring occurrence (`re.search` of a literal pattern). -/
def containsSeg (needle : List Char) : List Char → Bool
  | [] => needle.isEmpty
  | c :: cs => needle.isPrefixOf (c :: cs) || containsSeg needle cs

/-- The search semantics of the pattern
`r"VID:PID=(16C0|0483):(0483|5740)"` used by `get_anima_ports`: a pure
alternation of literals, so it matches a string iff one of its four
expansions occurs as a substring. -/
def vid_pid_pattern_search (s : String) : Bool :=
  ["VID:PID=16C0:0483", "VID:PID=16C0:5740",
   "VID:PID=0483:0483", "VID:PID=0483:5740"].any
    (fun lit => containsSeg lit.data s.data)

/-- `lp.grep(pattern)` applies the regex to device, description and hwid. -/
def grep_vid_pid (p : PortInfo) : Bool :=
  vid_pid_pattern_search p.device || vid_pid_pattern_search p.description ||
    vid_pid_pattern_search (hwid_string p)

/-- `Saber_Controller.get_anima_ports`: filter the enumerated ports with
`lp.grep(r"VID:PID=(16C0|0483):(0483|5740)")` and return their device
names. -/
def get_anima_ports (ports : List PortInfo) : List String :=
  (ports.filter grep_vid_pid).map PortInfo.device

/-- `lp.grep(port)` inside `port_is_anima`: the port name is used as the
search pattern over device, description and hwid.  Port names carry no
regex metacharacters in practice, so the search is literal-substring. -/
def grep_port_name (port : String) (p : PortInfo) : Bool :=
  containsSeg port.data p.device.data ||
    containsSeg port.data p.description.data ||
    containsSeg port.data (hwid_string p).data

/-- `Saber_Controller.port_is_anima`: grep for the port, take the first
hit (`next(ports)`, whose `StopIteration` is swallowed by the blanket
`except` and yields `False`), and test the exact VID/PID pairs. -/
def port_is_anima (port : String) (ports : List PortInfo) : Bool :=
  match ports.find? (grep_port_name port) with
  | none => false
  | some p =>
    (p.vid = 0x16C0 && p.pid = 0x0483) || (p.vid = 0x483 && p.pid = 0x5740)

/-- `Saber_Controller.initialize` (the name itself is a Lean keyword, so
the embedding is called `init_session`): an explicit port must pass
`port_is_anima` (else `NoAnimaSaberException`); with no port given, bind
to the first port `get_anima_ports` finds, or fail. -/
def init_session (port : Option String) (ports : List PortInfo) :
    Except PyErr String :=
  match port with
  | some p => if ¬ port_is_anima p ports then .error .noAnimaSaber else .ok p
  | none =>
    match get_anima_ports ports with
    | [] => .error .noAnimaSaber
    | p :: _ => .ok p

/-! ### File upload (`write_files_to_saber`)

A local file is modelled as a pair of its path and its byte content;
`os.path.getsize` is the content length.  The bundled default
`OpenCore_OEM/BEEP.RAW` asset is a parameter of the same shape. -/

/-- A local file: path and content. -/
abbrev LocalFile := String × Bytes

/-- `os.path.basename` (POSIX form): the characters after the last
slash. -/
def basename (p : String) : String :=
  String.mk (p.data.foldl (fun acc c => if c = '/' then [] else acc ++ [c]) [])

/-- The byte-by-byte streaming loop: `binary_file.read(1)` and
`self._ser.write(bytes)` until EOF. -/
def stream_bytes (content : Bytes) (t : Transport) : Transport :=
  content.foldl (fun t1 b => t1.write [b]) t

/-- The `WR=<name>, <size>\n` write-open header for a file. -/
def wr_header (f : LocalFile) : Bytes :=
  ascii ("WR=" ++ basename f.1 ++ ", " ++ toString f.2.length ++ "\n")

/-- The body of `write_files_to_saber`'s per-file loop: free-space
preflight, readiness check, write-open header, one ignored response line,
byte-by-byte payload streaming, and the terminal `OK, Write Complete`
check. -/
def write_one_file (f : LocalFile) (t : Transport) :
    Except PyErr Unit × Transport :=
  match get_free_space t with
  | (.error e, t1) => (.error e, t1)
  | (.ok free, t1) =>
    if free < (f.2.length : Int) then
      (.error (.notEnoughFreeSpace ("File: " ++ f.1)), t1)
    else
      match saber_is_ready t1 with
      | (false, t2) => (.error .animaNotReady, t2)
      | (true, t2) =>
        let t3 := send_command (wr_header f) t2
        match read_line t3 with
        | (.error _, t4) => (.error .readError, t4)
        | (.ok _, t4) =>
          let t5 := stream_bytes f.2 t4
          match read_line t5 with
          | (.error _, t6) => (.error .readError, t6)
          | (.ok resp, t6) =>
            if resp = ascii "OK, Write Complete\n" then (.ok (), t6)
            else
              (.error (.animaFileWrite
                ("Error message: " ++ String.mk (pyStrip (decode resp)))), t6)

/-- The `for file in files` loop of `write_files_to_saber`. -/
def write_loop : List LocalFile → Transport → Except PyErr Unit × Transport
  | [], t => (.ok (), t)
  | f :: fs, t =>
    match write_one_file f t with
    | (.ok _, t1) => write_loop fs t1
    | (.error e, t1) => (.error e, t1)

/-- `"BEEP.RAW" in file` for a local file's path. -/
def isBeep (f : LocalFile) : Bool :=
  containsSeg ("BEEP.RAW").data f.1.data

/-- The reorder loop: `for file in beep_files: files.remove(file);
files.append(file)` — each listed beep file has its first occurrence
removed and is appended at the end. -/
def move_beeps (files : List LocalFile) (beeps : List LocalFile) :
    List LocalFile :=
  beeps.foldl (fun fs b => fs.erase b ++ [b]) files

/-- `files.sort()`: stable insertion sort by path, matching Python's
lexicographic string order. -/
def pyInsert (f : LocalFile) : List LocalFile → List LocalFile
  | [] => [f]
  | g :: gs => if f.1 ≤ g.1 then f :: g :: gs else g :: pyInsert f gs

/-- Stable sort of the upload list by path. -/
def pySort (files : List LocalFile) : List LocalFile :=
  files.foldr pyInsert []

/-- The effective send order computed inside `write_files_to_saber` after
the initial sort: on an NXT, move the supplied `BEEP.RAW` files last, or
append the bundled default when permitted and the saber has none. -/
def plan_files (isNXT : Bool) (add_beep : Bool) (onSaber : List String)
    (beepDefault : LocalFile) (sorted : List LocalFile) : List LocalFile :=
  if isNXT then
    let beeps := sorted.filter isBeep
    if beeps ≠ [] then move_beeps sorted beeps
    else if add_beep ∧ ¬ onSaber.contains "BEEP.RAW" then
      sorted ++ [beepDefault]
    else sorted
  else sorted

/-- `Saber_Controller.write_files_to_saber`: sort, compute the effective
order (querying the saber's file list only in the branch that needs it,
exactly as the source does), then run the per-file loop. -/
def write_files_to_saber (files : List LocalFile) (add_beep : Bool)
    (beepDefault : LocalFile) (t : Transport) :
    Except PyErr Unit × Transport :=
  let sorted := pySort files
  match anima_is_NXT t with
  | (.error e, t1) => (.error e, t1)
  | (.ok isNXT, t1) =>
    if isNXT ∧ (sorted.filter isBeep) = [] ∧ add_beep then
      match list_files_on_saber t1 with
      | (.error e, t2) => (.error e, t2)
      | (.ok cur, t2) =>
        write_loop
          (plan_files isNXT add_beep (cur.map Prod.fst) beepDefault sorted) t2
    else
      write_loop (plan_files isNXT add_beep [] beepDefault sorted) t1

/-! ### Color and sound-effect commands -/

/-- `Saber_Controller.rgbw_to_byte_str`. -/
def rgbw_to_byte_str (r g b w : Nat) : Bytes :=
  ascii (toString r) ++ [44] ++ ascii (toString g) ++ [44] ++
    ascii (toString b) ++ [44] ++ ascii (toString w)

/-- `Saber_Controller.save_config`: send `SAVE` and require `OK SAVE`. -/
def save_config (t : Transport) : Except PyErr Unit × Transport :=
  let t1 := send_command (ascii "SAVE") t
  match read_line t1 with
  | (.error _, t2) => (.error .readError, t2)
  | (.ok resp, t2) =>
    if resp = ascii "OK SAVE\n" then (.ok (), t2)
    else (.error (.invalidSaberResponse "SAVE"), t2)

/-- The `match effect` dispatch of `set_color`: command prefixes for the
three colour channels; any other effect falls through to the default
case, which only logs and returns. -/
def color_effect_cmd (effect : String) : Option Bytes :=
  if effect = "color" then some (ascii "C")
  else if effect = "clash" then some (ascii "F")
  else if effect = "swing" then some (ascii "W")
  else none

/-- `Saber_Controller.set_color`: compose `<prefix><bank>=<r>,<g>,<b>,<w>`,
send it, require an `OK`-headed response, then save; an unrecognised
effect returns silently without touching the transport. -/
def set_color (bank : Nat) (effect : String) (r g b w : Nat)
    (t : Transport) : Except PyErr Unit × Transport :=
  match color_effect_cmd effect with
  | none => (.ok (), t)
  | some c =>
    let cmd := c ++ ascii (toString bank) ++ [61] ++
      rgbw_to_byte_str r g b w ++ [10]
    let t1 := send_command cmd t
    match read_line t1 with
    | (.error _, t2) => (.error .readError, t2)
    | (.ok resp, t2) =>
      if resp.take 2 = ascii "OK" then save_config t2
      else (.error (.invalidSaberResponse "set_color"), t2)

/-- `Saber_Controller._get_cmd_for_sound_effect`: the seven recognised
sound-effect kinds; anything else raises
`InvalidSoundEffectSpecifiedException`. -/
def get_cmd_for_sound_effect (effect : String) : Except PyErr Bytes :=
  if effect = "on" then .ok (ascii "sON")
  else if effect = "off" then .ok (ascii "sOFF")
  else if effect = "hum" then .ok (ascii "sHUM")
  else if effect = "swing" then .ok (ascii "sSW")
  else if effect = "clash" then .ok (ascii "sCL")
  else if effect = "smoothSwingA" then .ok (ascii "sSMA")
  else if effect = "smoothSwingB" then .ok (ascii "sSMB")
  else .error (.invalidSoundEffect ("Specified effect: " ++ effect))

/-! ### General effect lemmas for the transport -/

instance {ε α : Type} [DecidableEq ε] [DecidableEq α] :
    DecidableEq (Except ε α) := fun a b =>
  match a, b with
  | .ok x, .ok y =>
    if h : x = y then isTrue (by rw [h]) else isFalse (by simp [h])
  | .error x, .error y =>
    if h : x = y then isTrue (by rw [h]) else isFalse (by simp [h])
  | .ok _, .error _ => isFalse (by simp)
  | .error _, .ok _ => isFalse (by simp)

/-! ### Claims C1 and C2 -/

instance : DecidableEq Transport := fun a b =>
  if h1 : a.reads = b.reads then
    if h2 : a.written = b.written then
      isTrue (by cases a; cases b; simp_all)
    else isFalse (fun h => by cases h; exact h2 rfl)
  else isFalse (fun h => by cases h; exact h1 rfl)

theorem chunksOf_flatten (n : Nat) (l : Bytes) :
    (chunksOf n l).flatten = l := by
  induction l using chunksOf.induct n with
  | case1 => simp [chunksOf]
  | case2 b bs ih =>
    rw [chunksOf]
    simp only [List.flatten_cons, ih, List.take_succ_cons]
    simp

theorem foldl_write_eq (l : List Bytes) (t : Transport) :
    l.foldl Transport.write t = t.write l.flatten := by
  induction l generalizing t with
  | nil => simp [Transport.write]
  | cons b bs ih =>
    simp only [List.foldl_cons, List.flatten_cons, ih]
    simp [Transport.write]

/-- The byte-level effect of `send_command`: the wire receives exactly the
newline-terminated command. -/
theorem send_command_written (cmd : Bytes) (t : Transport) :
    send_command cmd t = t.write (withNL cmd) := by
  unfold send_command
  split
  · rfl
  · rw [foldl_write_eq, chunksOf_flatten]

theorem send_command_reads (cmd : Bytes) (t : Transport) :
    (send_command cmd t).reads = t.reads := by
  rw [send_command_written]
  rfl

theorem takeWhile_all_append (p : Char → Bool) (xs : List Char) (c : Char)
    (ys : List Char) (hxs : ∀ a ∈ xs, p a = true) (hc : p c = false) :
    (xs ++ c :: ys).takeWhile p = xs ∧ (xs ++ c :: ys).dropWhile p = c :: ys := by
  induction xs with
  | nil => simp [List.takeWhile_cons, List.dropWhile_cons, hc]
  | cons x xs ih =>
    have hx : p x = true := hxs x (by simp)
    have ih' := ih (fun a ha => hxs a (by simp [ha]))
    simp [List.takeWhile_cons, List.dropWhile_cons, hx, ih'.1, ih'.2]

theorem takeWhile_all {p : Char → Bool} {xs : List Char}
    (hxs : ∀ a ∈ xs, p a = true) :
    xs.takeWhile p = xs ∧ xs.dropWhile p = [] := by
  induction xs with
  | nil => simp
  | cons x xs ih =>
    have hx : p x = true := hxs x (by simp)
    have ih' := ih (fun a ha => hxs a (by simp [ha]))
    simp [List.takeWhile_cons, List.dropWhile_cons, hx, ih'.1, ih'.2]

theorem digit_not_space {c : Char} (h : isDigitChar c = true) :
    isSpaceChar c = false := by
  by_contra hs
  simp only [Bool.not_eq_false, isSpaceChar, Bool.or_eq_true, decide_eq_true_eq]
    at hs
  have hc : c = ' ' ∨ c = '\t' ∨ c = '\n' ∨ c = '\r' ∨ c = '\x0b' ∨
      c = '\x0c' ∨ c = '\x1c' ∨ c = '\x1d' ∨ c = '\x1e' ∨ c = '\x1f' := by
    tauto
  rcases hc with rfl | rfl | rfl | rfl | rfl | rfl | rfl | rfl | rfl | rfl <;>
    exact absurd h (by decide)

theorem digit_not_newline {c : Char} (h : isDigitChar c = true) : c ≠ '\n' := by
  intro hc
  subst hc
  simp [isDigitChar, Char.isDigit] at h

/-- Canonical-form characterisation of a successful `matchAt`: the input
splits as word-run, literal `.RAW`, whitespace-run, digit-run, remainder,
with each run non-empty and the remainder empty or newline-headed. -/
theorem matchAt_eq_some_iff {l w d rest : List Char} :
    matchAt l = some (w, d, rest) ↔
    ∃ w' sp, w = w' ++ ['.', 'R', 'A', 'W'] ∧
      l = w' ++ ['.', 'R', 'A', 'W'] ++ sp ++ d ++ rest ∧
      w' ≠ [] ∧ (∀ a ∈ w', isWordChar a = true) ∧
      sp ≠ [] ∧ (∀ a ∈ sp, isSpaceChar a = true) ∧
      d ≠ [] ∧ (∀ a ∈ d, isDigitChar a = true) ∧
      (rest = [] ∨ rest.head? = some '\n') := by
  constructor
  · intro h
    simp only [matchAt, ne_eq, ite_not] at h
    split at h
    case isTrue => exact absurd h (by simp)
    case isFalse hw =>
      split at h
      case isFalse => exact absurd h (by simp)
      case isTrue htake =>
        split at h
        case isTrue => exact absurd h (by simp)
        case isFalse hsp =>
          split at h
          case isTrue => exact absurd h (by simp)
          case isFalse hds =>
            split at h
            case isFalse => exact absurd h (by simp)
            case isTrue hr4 =>
              simp only [Option.some.injEq, Prod.mk.injEq] at h
              obtain ⟨hw', hd', hrest⟩ := h
              refine ⟨l.takeWhile isWordChar,
                ((l.dropWhile isWordChar).drop 4).takeWhile isSpaceChar,
                hw'.symm, ?_, hw, fun a ha => List.mem_takeWhile_imp ha,
                hsp, fun a ha => List.mem_takeWhile_imp ha,
                ?_, ?_, ?_⟩
              · have e1 : l = l.takeWhile isWordChar ++ l.dropWhile isWordChar :=
                  (List.takeWhile_append_dropWhile isWordChar l).symm
                have e2 : l.dropWhile isWordChar =
                    ['.', 'R', 'A', 'W'] ++ (l.dropWhile isWordChar).drop 4 := by
                  conv_lhs =>
                    rw [← List.take_append_drop 4 (l.dropWhile isWordChar)]
                  rw [htake]
                have e3 : (l.dropWhile isWordChar).drop 4 =
                    ((l.dropWhile isWordChar).drop 4).takeWhile isSpaceChar ++
                      ((l.dropWhile isWordChar).drop 4).dropWhile isSpaceChar :=
                  (List.takeWhile_append_dropWhile _ _).symm
                have e4 : ((l.dropWhile isWordChar).drop 4).dropWhile
                    isSpaceChar = d ++ rest := by
                  rw [← hd', ← hrest]
                  exact (List.takeWhile_append_dropWhile _ _).symm
                conv_lhs => rw [e1, e2, e3, e4]
                simp [List.append_assoc]
              · rw [← hd']
                exact hds
              · intro a ha
                rw [← hd'] at ha
                exact List.mem_takeWhile_imp ha
              · rw [← hrest]
                exact hr4
  · rintro ⟨w', sp, hw, hl, hw'ne, hw'all, hspne, hspall, hdne, hdall, hrest⟩
    obtain ⟨d0, d', rfl⟩ : ∃ d0 d', d = d0 :: d' := by
      cases d with
      | nil => exact absurd rfl hdne
      | cons d0 d' => exact ⟨d0, d', rfl⟩
    have hd0 : isDigitChar d0 = true := hdall d0 (by simp)
    have step1 : l.takeWhile isWordChar = w' ∧
        l.dropWhile isWordChar = '.' :: ('R' :: 'A' :: 'W' ::
          (sp ++ (d0 :: d') ++ rest)) := by
      have := takeWhile_all_append isWordChar w' '.'
        ('R' :: 'A' :: 'W' :: (sp ++ (d0 :: d') ++ rest)) hw'all (by decide)
      rw [hl]
      constructor
      · rw [show w' ++ ['.', 'R', 'A', 'W'] ++ sp ++ (d0 :: d') ++ rest =
          w' ++ '.' :: ('R' :: 'A' :: 'W' :: (sp ++ (d0 :: d') ++ rest)) by
            simp]
        exact this.1
      · rw [show w' ++ ['.', 'R', 'A', 'W'] ++ sp ++ (d0 :: d') ++ rest =
          w' ++ '.' :: ('R' :: 'A' :: 'W' :: (sp ++ (d0 :: d') ++ rest)) by
            simp]
        exact this.2
    have step2 : (sp ++ ((d0 :: d') ++ rest)).takeWhile isSpaceChar = sp ∧
        (sp ++ ((d0 :: d') ++ rest)).dropWhile isSpaceChar =
          (d0 :: d') ++ rest := by
      exact takeWhile_all_append isSpaceChar sp d0 (d' ++ rest) hspall
        (digit_not_space hd0)
    have step3 : ((d0 :: d') ++ rest).takeWhile isDigitChar = d0 :: d' ∧
        ((d0 :: d') ++ rest).dropWhile isDigitChar = rest := by
      rcases hrest with h | h
      · subst h
        simpa using takeWhile_all hdall
      · obtain ⟨r', rfl⟩ : ∃ r', rest = '\n' :: r' := by
          cases rest with
          | nil => simp at h
          | cons r0 r' =>
            simp only [List.head?_cons, Option.some.injEq] at h
            exact ⟨r', by rw [h]⟩
        exact takeWhile_all_append isDigitChar (d0 :: d') '\n' r' hdall
          (by decide)
    have hfin : matchAt l =
        some (w' ++ ['.', 'R', 'A', 'W'], d0 :: d', rest) := by
      simp only [matchAt, ne_eq, ite_not, step1.1, step1.2]
      rw [if_neg hw'ne]
      simp only [List.take_succ_cons, List.take_zero, List.drop_succ_cons,
        List.drop_zero, eq_self_iff_true, if_true]
      rw [show sp ++ (d0 :: d') ++ rest = sp ++ ((d0 :: d') ++ rest) by simp,
        step2.1, step2.2, step3.1, step3.2]
      rw [if_neg hspne, if_neg (by simp : ¬(d0 :: d' = [])), if_pos hrest]
    rw [hw]
    exact hfin

theorem matchAt_rest_length {l w d rest : List Char}
    (h : matchAt l = some (w, d, rest)) : rest.length < l.length := by
  obtain ⟨w', sp, -, hl, hw'ne, -, -, -, -, -, -⟩ := matchAt_eq_some_iff.mp h
  have : w'.length ≥ 1 := by
    cases w' with
    | nil => exact absurd rfl hw'ne
    | cons a as => simp
  rw [hl]
  simp only [List.length_append]
  omega

theorem findAllAux_fuel_irrel :
    ∀ (f1 : Nat) (l : List Char) (b : Bool) (f2 : Nat), l.length < f1 →
      l.length < f2 → findAllAux f1 l b = findAllAux f2 l b := by
  intro f1
  induction f1 with
  | zero => intro l b f2 h1; omega
  | succ f ih =>
    intro l b f2 h1 h2
    cases f2 with
    | zero => omega
    | succ g =>
      cases l with
      | nil => rfl
      | cons c cs =>
        simp only [findAllAux]
        have hlen : cs.length < f ∧ cs.length < g := by
          simp only [List.length_cons] at h1 h2
          omega
        cases b with
        | false => exact ih cs (c = '\n') g hlen.1 hlen.2
        | true =>
          simp only [if_pos]
          cases hm : matchAt (c :: cs) with
          | none => rw [ih cs (c = '\n') g hlen.1 hlen.2]
          | some trip =>
            rcases trip with ⟨w, d, rest⟩
            dsimp only
            have hr : rest.length < (c :: cs).length :=
              matchAt_rest_length hm
            simp only [List.length_cons] at hr h1 h2
            rw [ih rest false g (by omega) (by omega)]

theorem findAll_nil (b : Bool) : findAll [] b = [] := rfl

theorem findAll_cons_false (c : Char) (cs : List Char) :
    findAll (c :: cs) false = findAll cs (c = '\n') := by
  unfold findAll
  simp only [findAllAux, if_neg, Bool.false_eq_true, not_false_eq_true]
  exact findAllAux_fuel_irrel _ cs _ _ (by simp) (by simp)

theorem findAll_cons_nomatch (c : Char) (cs : List Char)
    (hm : matchAt (c :: cs) = none) :
    findAll (c :: cs) true = findAll cs (c = '\n') := by
  unfold findAll
  simp only [findAllAux, if_pos, hm]
  exact findAllAux_fuel_irrel _ cs _ _ (by simp) (by simp)

theorem findAll_cons_match (c : Char) (cs w d rest : List Char)
    (hm : matchAt (c :: cs) = some (w, d, rest)) :
    findAll (c :: cs) true = (w, d) :: findAll rest false := by
  unfold findAll
  simp only [findAllAux, if_pos, hm]
  rw [findAllAux_fuel_irrel ((c :: cs).length) rest false (rest.length + 1)
    (matchAt_rest_length hm) (Nat.lt_succ_self _)]

theorem ascii_append (a b : String) : ascii (a ++ b) = ascii a ++ ascii b := by
  simp [ascii, String.data_append]

theorem read_line_written (t : Transport) :
    (read_line t).2.written = t.written := by
  unfold read_line
  cases t.reads <;> rfl

theorem stream_bytes_written (content : Bytes) (t : Transport) :
    (stream_bytes content t).written = t.written ++ content := by
  induction content generalizing t with
  | nil => simp [stream_bytes]
  | cons b bs ih =>
    simp only [stream_bytes, List.foldl_cons] at ih ⊢
    rw [ih]
    simp [Transport.write]

theorem write_reads (t : Transport) (b : Bytes) : (t.write b).reads = t.reads :=
  rfl

theorem write_written (t : Transport) (b : Bytes) :
    (t.write b).written = t.written ++ b := rfl

theorem stream_bytes_reads (content : Bytes) (t : Transport) :
    (stream_bytes content t).reads = t.reads := by
  induction content generalizing t with
  | nil => rfl
  | cons b bs ih =>
    simp only [stream_bytes, List.foldl_cons] at ih ⊢
    rw [ih]
    rfl

theorem saber_is_ready_written (t : Transport) :
    (saber_is_ready t).2.written = t.written ++ ascii "WR?\n" := by
  unfold saber_is_ready
  rw [send_command_written, show withNL (ascii "WR?") = ascii "WR?\n" from rfl]
  cases ht : t.reads with
  | nil => simp [read_line, Transport.write, ht]
  | cons r rs => cases r <;> simp [read_line, Transport.write, ht]

theorem get_free_space_written (t : Transport) :
    (get_free_space t).2.written = t.written ++ ascii "FREE?\n" := by
  unfold get_free_space
  rw [send_command_written,
    show withNL (ascii "FREE?") = ascii "FREE?\n" from rfl]
  cases ht : t.reads with
  | nil =>
    cases hp : parsePyInt ((pyStrip (decode ([] : Bytes))).drop 5) <;>
      simp [read_line, Transport.write, ht, hp]
  | cons r rs =>
    cases r with
    | error e => simp [read_line, Transport.write, ht]
    | ok v =>
      cases hp : parsePyInt ((pyStrip (decode v)).drop 5) <;>
        simp [read_line, Transport.write, ht, hp]

/-! ### Claim C3 -/

/-- C3: `saber_is_ready` returns `true` exactly when the line read in
answer to `WR?` is the byte string `OK, Write Ready\n`; for every other
transport — empty reads (exhausted script or scripted empty line),
malformed data, or a scripted exception — it returns `false`.  The
embedding returns a plain `Bool` (not an `Except`), mirroring the
source's blanket `except` handler: the function cannot raise. -/
theorem saber_is_ready_iff_ready_line (t : Transport) :
    (saber_is_ready t).1 = true ↔
      t.reads.head? = some (.ok (ascii "OK, Write Ready\n")) := by
  unfold saber_is_ready
  rw [send_command_written]
  cases ht : t.reads with
  | nil =>
    simp only [read_line, write_reads, ht]
    simp [show (ascii "OK, Write Ready\n") ≠ [] from by decide]
  | cons r rs =>
    cases r with
    | error e => simp [read_line, write_reads, ht]
    | ok v => simp [read_line, write_reads, ht, eq_comm]

/-! ### Claim C7 (corrected) -/

/-- C7 counterexample: `read_line` performs exactly one transport read
with no retry: with a script holding a single empty line, `saber_is_ready`
consumes that one read and immediately reports failure — the exchange is
declared failed after one empty read, and the script is exhausted (no
second read attempt was made). -/
theorem read_line_no_retry_counterexample :
    saber_is_ready ⟨[.ok []], []⟩ = (false, ⟨[], ascii "WR?\n"⟩) := by
  rfl

/-- C7 amended: `read_line` performs exactly one underlying read per call
— it pops exactly one scripted result (or returns the timeout-empty line
on an exhausted script) with no retry and no backoff — and a single empty
read is returned to the caller as the final response, so an exchange such
as `saber_is_ready` is declared failed after one empty read. -/
theorem read_line_single_read (r : Except Unit Bytes)
    (rest : List (Except Unit Bytes)) (w : Bytes) :
    read_line ⟨r :: rest, w⟩ = (r, ⟨rest, w⟩) ∧
    read_line ⟨[], w⟩ = (.ok [], ⟨[], w⟩) ∧
    (saber_is_ready ⟨.ok [] :: rest, w⟩).1 = false := by
  refine ⟨rfl, rfl, ?_⟩
  unfold saber_is_ready
  rw [send_command_written]
  simp [read_line, write_reads]
  exact fun h => absurd h (by decide)

/-! ### Claim C8 (corrected) -/

/-- C8 counterexample: a session constructed with an explicit port is NOT
accepted unverified — `initialize` runs `port_is_anima` on it and raises
`NoAnimaSaberException` when the check fails, here for an explicitly
supplied port whose device has a non-matching vendor/product ID. -/
theorem init_session_explicit_port_counterexample :
    init_session (some "/dev/ttyUSB0") [⟨"/dev/ttyUSB0", "serial", 0, 0⟩] =
      .error .noAnimaSaber := by
  decide

/-- C8 amended: an explicitly supplied port is verified with
`port_is_anima` (the USB vendor/product check); the port is accepted as
the session port iff that check passes, and `NoAnimaSaberException` is
raised iff it fails. -/
theorem init_session_explicit_port (p : String) (ports : List PortInfo) :
    (port_is_anima p ports = true → init_session (some p) ports = .ok p) ∧
    (port_is_anima p ports = false →
      init_session (some p) ports = .error .noAnimaSaber) := by
  constructor
  · intro h
    simp [init_session, h]
  · intro h
    simp [init_session, h]

/-- Witness for C8's amended theorem: a port whose descriptor carries the
EVO vendor/product pair passes and is accepted; the port of the
counterexample fails and raises. -/
theorem init_session_explicit_port_witness :
    init_session (some "/dev/ttyACM0")
      [⟨"/dev/ttyACM0", "Anima EVO", 0x16C0, 0x0483⟩] = .ok "/dev/ttyACM0" :=
  (init_session_explicit_port "/dev/ttyACM0"
    [⟨"/dev/ttyACM0", "Anima EVO", 0x16C0, 0x0483⟩]).1 (by decide)

/-! ### Claim C6 (code bug) -/

/-- C6: the claim matches the code's own comment (`EVO: VID=16C0 PID=0483`,
`NXT: VID=0483 PID=5740`) and the sibling check `port_is_anima`, but the
regex `VID:PID=(16C0|0483):(0483|5740)` in `get_anima_ports` also admits
the two cross combinations.  At the failing input — an enumerated port
with VID `16C0` and PID `5740` — `get_anima_ports` admits the port even
though its ID pair is neither supported pair, and `port_is_anima` (the
exact-pair check used for explicit ports) rejects the same device. -/
theorem get_anima_ports_admits_cross_pair :
    get_anima_ports [⟨"/dev/ttyACM0", "gadget", 0x16C0, 0x5740⟩] =
        ["/dev/ttyACM0"] ∧
    port_is_anima "/dev/ttyACM0"
        [⟨"/dev/ttyACM0", "gadget", 0x16C0, 0x5740⟩] = false ∧
    ¬(((0x16C0 : Nat), (0x5740 : Nat)) = ((0x16C0 : Nat), (0x0483 : Nat)) ∨
      ((0x16C0 : Nat), (0x5740 : Nat)) = ((0x0483 : Nat), (0x5740 : Nat))) := by
  refine ⟨by decide, by decide, by decide⟩

/-! ### Claim C9 -/

theorem send_command_concat_nl (l : Bytes) (t : Transport) :
    send_command (l ++ [10]) t = t.write (l ++ [10]) := by
  rw [send_command_written]
  unfold withNL
  rw [List.getLast?_concat]
  simp

theorem rgbw_to_byte_str_ascii (r g b w : Nat) :
    rgbw_to_byte_str r g b w =
      ascii (toString r ++ "," ++ toString g ++ "," ++ toString b ++ "," ++
        toString w) := by
  simp only [ascii_append, rgbw_to_byte_str]
  norm_num [show ascii "," = [44] from rfl]

theorem set_color_known_effect (bank r g b w : Nat) (effect : String)
    (c : Bytes) (t : Transport) (resp : Bytes)
    (rest : List (Except Unit Bytes))
    (hc : color_effect_cmd effect = some c)
    (hreads : t.reads = .ok resp :: .ok (ascii "OK SAVE\n") :: rest)
    (hok : resp.take 2 = ascii "OK") :
    (set_color bank effect r g b w t).2.written =
      t.written ++ (c ++ ascii (toString bank) ++ [61] ++
        rgbw_to_byte_str r g b w ++ [10]) ++ ascii "SAVE\n" := by
  unfold set_color
  rw [hc]
  dsimp only
  rw [show c ++ ascii (toString bank) ++ [61] ++ rgbw_to_byte_str r g b w ++
      [10] = (c ++ ascii (toString bank) ++ [61] ++
        rgbw_to_byte_str r g b w) ++ [10] by simp [List.append_assoc]]
  rw [send_command_concat_nl]
  simp only [read_line, write_reads, hreads, write_written]
  rw [if_pos hok]
  unfold save_config
  rw [send_command_written, show withNL (ascii "SAVE") = ascii "SAVE\n" from
    rfl]
  simp only [read_line, write_reads, write_written]
  simp [List.append_assoc]

/-- C9: `set_color bank "clash" r g b w` sends to the transport exactly
the command bytes `F<bank>=<r>,<g>,<b>,<w>\n` (followed by the implicit
`SAVE\n` that `set_color` always issues after an `OK` response); channel
`color` maps to command letter `C` and `swing` to `W`, for every bank
index and RGBW tuple. -/
theorem set_color_exact_bytes (bank r g b w : Nat) (t : Transport)
    (resp : Bytes) (rest : List (Except Unit Bytes))
    (hreads : t.reads = .ok resp :: .ok (ascii "OK SAVE\n") :: rest)
    (hok : resp.take 2 = ascii "OK") :
    (set_color bank "clash" r g b w t).2.written =
      t.written ++ ascii ("F" ++ toString bank ++ "=" ++ toString r ++ "," ++
        toString g ++ "," ++ toString b ++ "," ++ toString w ++ "\n") ++
        ascii "SAVE\n" ∧
    (set_color bank "color" r g b w t).2.written =
      t.written ++ ascii ("C" ++ toString bank ++ "=" ++ toString r ++ "," ++
        toString g ++ "," ++ toString b ++ "," ++ toString w ++ "\n") ++
        ascii "SAVE\n" ∧
    (set_color bank "swing" r g b w t).2.written =
      t.written ++ ascii ("W" ++ toString bank ++ "=" ++ toString r ++ "," ++
        toString g ++ "," ++ toString b ++ "," ++ toString w ++ "\n") ++
        ascii "SAVE\n" := by
  have hbytes : ∀ s : String, ascii s ++ ascii (toString bank) ++ [61] ++
      rgbw_to_byte_str r g b w ++ [10] =
      ascii (s ++ toString bank ++ "=" ++ toString r ++ "," ++ toString g ++
        "," ++ toString b ++ "," ++ toString w ++ "\n") := by
    intro s
    rw [rgbw_to_byte_str_ascii]
    simp only [ascii_append, show ascii "=" = [61] from rfl,
      show ascii "\n" = [10] from rfl]
    simp [List.append_assoc]
  refine ⟨?_, ?_, ?_⟩
  · rw [set_color_known_effect bank r g b w "clash" (ascii "F") t resp rest
      rfl hreads hok, hbytes "F"]
  · rw [set_color_known_effect bank r g b w "color" (ascii "C") t resp rest
      rfl hreads hok, hbytes "C"]
  · rw [set_color_known_effect bank r g b w "swing" (ascii "W") t resp rest
      rfl hreads hok, hbytes "W"]

/-- Witness for C9 at bank 1 and RGBW `10,20,30,40` against a transport
scripting an `OK` echo and the `OK SAVE` acknowledgement. -/
theorem set_color_exact_bytes_witness :
    (set_color 1 "clash" 10 20 30 40
        ⟨[.ok (ascii "OK\n"), .ok (ascii "OK SAVE\n")], []⟩).2.written =
      [] ++ ascii ("F" ++ toString 1 ++ "=" ++ toString 10 ++ "," ++
        toString 20 ++ "," ++ toString 30 ++ "," ++ toString 40 ++ "\n") ++
        ascii "SAVE\n" :=
  (set_color_exact_bytes 1 10 20 30 40
    ⟨[.ok (ascii "OK\n"), .ok (ascii "OK SAVE\n")], []⟩
    (ascii "OK\n") [] rfl (by decide)).1

theorem wr_header_ends_nl (f : LocalFile) :
    withNL (wr_header f) = wr_header f := by
  unfold withNL wr_header
  rw [show ("WR=" ++ basename f.1 ++ ", " ++ toString f.2.length ++ "\n") =
    ("WR=" ++ basename f.1 ++ ", " ++ toString f.2.length) ++ "\n" from by
      simp [String.append_assoc],
    ascii_append, show ascii "\n" = [10] from rfl, List.getLast?_concat]
  simp

/-- C1: on every successful per-file upload, the byte trace written to the
transport decomposes as the `FREE?` and `WR?` queries, then the write-open
header `WR=<name>, <size>\n` declaring the local file's size, then a
payload whose length equals exactly that declared size — the payload is
streamed in full before the terminal response line is read. -/
theorem write_one_file_declared_size (f : LocalFile) (t t' : Transport)
    (h : write_one_file f t = (.ok (), t')) :
    ∃ payload : Bytes, payload.length = f.2.length ∧
      t'.written = t.written ++ ascii "FREE?\n" ++ ascii "WR?\n" ++
        ascii ("WR=" ++ basename f.1 ++ ", " ++ toString f.2.length ++ "\n")
        ++ payload := by
  unfold write_one_file at h
  rcases hfs : get_free_space t with ⟨res1, t1⟩
  rw [hfs] at h
  have ht1 : t1.written = t.written ++ ascii "FREE?\n" := by
    have := get_free_space_written t
    rw [hfs] at this
    exact this
  cases res1 with
  | error e => simp at h
  | ok free =>
    dsimp only at h
    by_cases hlt : free < (f.2.length : Int)
    · rw [if_pos hlt] at h
      simp at h
    · rw [if_neg hlt] at h
      rcases hrd : saber_is_ready t1 with ⟨b, t2⟩
      rw [hrd] at h
      have ht2 : t2.written = t1.written ++ ascii "WR?\n" := by
        have := saber_is_ready_written t1
        rw [hrd] at this
        exact this
      cases b with
      | false => simp at h
      | true =>
        dsimp only at h
        rw [show send_command (wr_header f) t2 = t2.write (wr_header f) from
          by rw [send_command_written, wr_header_ends_nl]] at h
        rcases hr1 : read_line (t2.write (wr_header f)) with ⟨res3, t4⟩
        rw [hr1] at h
        have ht4 : t4.written = t2.written ++ wr_header f := by
          have := read_line_written (t2.write (wr_header f))
          rw [hr1] at this
          exact this
        cases res3 with
        | error e => simp at h
        | ok ignored =>
          dsimp only at h
          rcases hr2 : read_line (stream_bytes f.2 t4) with ⟨res5, t6⟩
          rw [hr2] at h
          have ht6 : t6.written = t4.written ++ f.2 := by
            have h5 := read_line_written (stream_bytes f.2 t4)
            rw [hr2] at h5
            rw [h5, stream_bytes_written]
          cases res5 with
          | error e => simp at h
          | ok resp =>
            dsimp only at h
            by_cases hresp : resp = ascii "OK, Write Complete\n"
            · rw [if_pos hresp] at h
              have ht' : t' = t6 := by
                have := congrArg Prod.snd h
                exact this.symm
              refine ⟨f.2, rfl, ?_⟩
              rw [ht', ht6, ht4, ht2, ht1]
              simp [wr_header, List.append_assoc]
            · rw [if_neg hresp] at h
              simp at h

/-- Witness for C1: a complete successful upload of a three-byte file. -/
theorem write_one_file_declared_size_witness :
    ∃ payload : Bytes,
      payload.length = (("sounds/POWERON.RAW", [1, 2, 3]) : LocalFile).2.length ∧
      (⟨[], ascii "FREE?\n" ++ ascii "WR?\n" ++
          ascii "WR=POWERON.RAW, 3\n" ++ [1, 2, 3]⟩ : Transport).written =
        (⟨[.ok (ascii "FREE=100\n"), .ok (ascii "OK, Write Ready\n"),
            .ok (ascii "OK\n"), .ok (ascii "OK, Write Complete\n")],
          []⟩ : Transport).written ++
        ascii "FREE?\n" ++ ascii "WR?\n" ++
        ascii ("WR=" ++ basename ("sounds/POWERON.RAW", [1, 2, 3]).1 ++ ", " ++
          toString (("sounds/POWERON.RAW", [1, 2, 3]) : LocalFile).2.length ++
          "\n") ++ payload :=
  write_one_file_declared_size ("sounds/POWERON.RAW", [1, 2, 3])
    ⟨[.ok (ascii "FREE=100\n"), .ok (ascii "OK, Write Ready\n"),
      .ok (ascii "OK\n"), .ok (ascii "OK, Write Complete\n")], []⟩
    ⟨[], ascii "FREE?\n" ++ ascii "WR?\n" ++
      ascii "WR=POWERON.RAW, 3\n" ++ [1, 2, 3]⟩
    (by decide)

/-- C2: when the free-space reply for a file reports less space than the
file's size, the whole upload aborts with `NotEnoughFreeSpaceException`
naming exactly that file, before any byte of that file — its write-open
header included — reaches the transport (only the `FREE?` query itself was
written), and the bytes of the files already written earlier in the same
call are left in place (the earlier trace `t1.written` is preserved
unchanged, only extended). -/
theorem write_loop_fail_fast (done rest' : List LocalFile) (f : LocalFile)
    (t t1 t2 : Transport) (n : Int)
    (h1 : write_loop done t = (.ok (), t1))
    (h2 : get_free_space t1 = (.ok n, t2))
    (h3 : n < (f.2.length : Int)) :
    write_loop (done ++ f :: rest') t =
      (.error (.notEnoughFreeSpace ("File: " ++ f.1)), t2) ∧
    t2.written = t1.written ++ ascii "FREE?\n" := by
  have hone : write_one_file f t1 =
      (.error (.notEnoughFreeSpace ("File: " ++ f.1)), t2) := by
    unfold write_one_file
    rw [h2]
    dsimp only
    rw [if_pos h3]
  have hw2 : t2.written = t1.written ++ ascii "FREE?\n" := by
    have := get_free_space_written t1
    rw [h2] at this
    exact this
  refine ⟨?_, hw2⟩
  clear hw2 h2 h3
  revert h1
  induction done generalizing t with
  | nil =>
    intro h1
    have ht : t = t1 := by
      unfold write_loop at h1
      exact congrArg Prod.snd h1
    subst ht
    simp only [List.nil_append]
    unfold write_loop
    rw [hone]
  | cons d ds ih =>
    intro h1
    simp only [List.cons_append]
    unfold write_loop at h1 ⊢
    rcases hd : write_one_file d t with ⟨resd, td⟩
    rw [hd] at h1
    cases resd with
    | error e =>
      dsimp only at h1
      simp at h1
    | ok u =>
      dsimp only at h1 ⊢
      exact ih td h1

/-- Witness for C2: a two-byte file against a device reporting one free
byte — the loop aborts naming the file, with only `FREE?` on the wire. -/
theorem write_loop_fail_fast_witness :
    write_loop ([] ++ ("BEEP.RAW", [1, 2]) :: []) ⟨[.ok (ascii "FREE=1\n")], []⟩ =
      (.error (.notEnoughFreeSpace ("File: " ++ "BEEP.RAW")),
        ⟨[], ascii "FREE?\n"⟩) ∧
    (⟨[], ascii "FREE?\n"⟩ : Transport).written =
      (⟨[.ok (ascii "FREE=1\n")], []⟩ : Transport).written ++ ascii "FREE?\n" :=
  write_loop_fail_fast [] [] ("BEEP.RAW", [1, 2])
    ⟨[.ok (ascii "FREE=1\n")], []⟩ ⟨[.ok (ascii "FREE=1\n")], []⟩
    ⟨[], ascii "FREE?\n"⟩ 1 rfl (by decide) (by decide)

/-! ### Claim C5 -/

/-- The net effect of the remove-first-then-append loop: with the beep
list taken from the file list itself, the non-beep files keep their order
and all beep files move to the end, in order. -/
theorem move_beeps_partition (p : LocalFile → Bool) :
    ∀ (fs pre post : List LocalFile),
      (∀ x ∈ pre, p x = false) → (∀ x ∈ post, p x = true) →
      move_beeps (pre ++ fs ++ post) (fs.filter p) =
        pre ++ fs.filter (fun x => ! p x) ++ post ++ fs.filter p := by
  intro fs
  induction fs with
  | nil =>
    intro pre post hpre hpost
    simp [move_beeps]
  | cons f fs ih =>
    intro pre post hpre hpost
    by_cases hf : p f
    · have hfpre : f ∉ pre := fun hmem => by
        have := hpre f hmem
        simp [hf] at this
      have step : move_beeps (pre ++ (f :: fs) ++ post) ((f :: fs).filter p) =
          move_beeps (pre ++ fs ++ (post ++ [f])) (fs.filter p) := by
        simp only [List.filter_cons, hf, if_pos, move_beeps, List.foldl_cons]
        have herase : (pre ++ (f :: fs) ++ post).erase f = pre ++ fs ++ post := by
          rw [List.append_assoc, List.erase_append_right _ hfpre,
            show (f :: fs) ++ post = f :: (fs ++ post) from rfl,
            List.erase_cons_head]
          simp [List.append_assoc]
        rw [herase]
        have : pre ++ fs ++ post ++ [f] = pre ++ fs ++ (post ++ [f]) := by
          simp [List.append_assoc]
        rw [this]
      rw [step, ih pre (post ++ [f]) hpre (fun x hx => by
        rcases List.mem_append.mp hx with h | h
        · exact hpost x h
        · simp only [List.mem_singleton] at h
          rw [h]
          exact hf)]
      simp only [List.filter_cons, hf, if_pos]
      have hnf : (! p f) = false := by simp [hf]
      simp [hnf, List.append_assoc]
    · have hfb : p f = false := by simpa using hf
      have step : (pre ++ (f :: fs) ++ post) = ((pre ++ [f]) ++ fs ++ post) := by
        simp [List.append_assoc]
      rw [show (f :: fs).filter p = fs.filter p by
        simp [List.filter_cons, hfb], step,
        ih (pre ++ [f]) post (fun x hx => by
          rcases List.mem_append.mp hx with h | h
          · exact hpre x h
          · simp only [List.mem_singleton] at h
            rw [h]
            exact hfb) hpost]
      simp [List.filter_cons, hfb, List.append_assoc]

/-- C5: on a family-B (NXT) device, the effective send order places every
path containing `BEEP.RAW` after all other paths, whatever the input
order; and when no beep path is supplied, `add_beep` is set, and the
device's listing has no `BEEP.RAW`, the bundled default asset is appended
to the sorted order. -/
theorem plan_files_beeps_last (files : List LocalFile) (add_beep : Bool)
    (onSaber : List String) (bd : LocalFile) (hbd : isBeep bd = true) :
    (plan_files true add_beep onSaber bd (pySort files) =
      (plan_files true add_beep onSaber bd (pySort files)).filter
          (fun f => ! isBeep f) ++
        (plan_files true add_beep onSaber bd (pySort files)).filter isBeep) ∧
    ((pySort files).filter isBeep = [] → add_beep = true →
      onSaber.contains "BEEP.RAW" = false →
      plan_files true add_beep onSaber bd (pySort files) =
        pySort files ++ [bd]) := by
  constructor
  · set s := pySort files with hs
    simp only [plan_files, if_pos]
    by_cases hb : s.filter isBeep = []
    · rw [if_neg (by simp [hb])]
      have hnone : ∀ x ∈ s, isBeep x = false := by
        intro x hx
        by_contra hcon
        have hx2 : x ∈ s.filter isBeep := by
          rw [List.mem_filter]
          refine ⟨hx, ?_⟩
          cases hpx : isBeep x
          · exact absurd hpx hcon
          · rfl
        rw [hb] at hx2
        exact absurd hx2 (List.not_mem_nil x)
      by_cases hcond : add_beep = true ∧ ¬ onSaber.contains "BEEP.RAW"
      · rw [if_pos hcond]
        have h1 : (s ++ [bd]).filter (fun f => ! isBeep f) = s := by
          rw [List.filter_append]
          rw [List.filter_eq_self.mpr (fun x hx => by simp [hnone x hx])]
          simp [hbd]
        have h2 : (s ++ [bd]).filter isBeep = [bd] := by
          rw [List.filter_append]
          rw [show s.filter isBeep = [] from hb]
          simp [hbd]
        rw [h1, h2]
      · rw [if_neg hcond]
        rw [List.filter_eq_self.mpr (fun x hx => by simp [hnone x hx]), hb]
        simp
    · rw [if_pos hb]
      have hpart := move_beeps_partition isBeep s [] [] (by simp) (by simp)
      simp only [List.nil_append, List.append_nil] at hpart
      rw [hpart]
      have hA : ∀ x ∈ s.filter (fun x => ! isBeep x), isBeep x = false := by
        intro x hx
        have hx2 := (List.mem_filter.mp hx).2
        cases hpx : isBeep x
        · rfl
        · rw [hpx] at hx2
          exact absurd hx2 (by simp)
      have hB : ∀ x ∈ s.filter isBeep, isBeep x = true := by
        intro x hx
        exact (List.mem_filter.mp hx).2
      have e1 : (s.filter (fun x => ! isBeep x) ++ s.filter isBeep).filter
          (fun f => ! isBeep f) = s.filter (fun x => ! isBeep x) := by
        rw [List.filter_append]
        rw [List.filter_eq_self.mpr (fun x hx => by simp [hA x hx])]
        rw [show (s.filter isBeep).filter (fun f => ! isBeep f) = [] from by
          rw [List.filter_eq_nil_iff]
          intro x hx
          simp [hB x hx]]
        simp
      have e2 : (s.filter (fun x => ! isBeep x) ++ s.filter isBeep).filter
          isBeep = s.filter isBeep := by
        rw [List.filter_append]
        rw [show (s.filter (fun x => ! isBeep x)).filter isBeep = [] from by
          rw [List.filter_eq_nil_iff]
          intro x hx
          simp [hA x hx]]
        rw [List.filter_eq_self.mpr (fun x hx => hB x hx)]
        simp
      rw [e1, e2]
  · intro h1 h2 h3
    simp only [plan_files, if_pos]
    rw [if_neg (by simp [h1])]
    rw [if_pos ⟨h2, by simpa using h3⟩]

/-- Witness for C5: one non-beep file, `add_beep` set, nothing on the
saber — the bundled default is appended, and the partition equality holds
at the same input. -/
theorem plan_files_beeps_last_witness :
    (plan_files true true [] ("OpenCore_OEM/BEEP.RAW", [7])
        (pySort [("POWERON.RAW", [1])]) =
      (plan_files true true [] ("OpenCore_OEM/BEEP.RAW", [7])
          (pySort [("POWERON.RAW", [1])])).filter (fun f => ! isBeep f) ++
        (plan_files true true [] ("OpenCore_OEM/BEEP.RAW", [7])
          (pySort [("POWERON.RAW", [1])])).filter isBeep) ∧
    plan_files true true [] ("OpenCore_OEM/BEEP.RAW", [7])
        (pySort [("POWERON.RAW", [1])]) =
      pySort [("POWERON.RAW", [1])] ++ [("OpenCore_OEM/BEEP.RAW", [7])] := by
  have h := plan_files_beeps_last [("POWERON.RAW", [1])] true []
    ("OpenCore_OEM/BEEP.RAW", [7]) (by decide)
  exact ⟨h.1, h.2 (by decide) rfl (by decide)⟩

/-- C10: for any effect string other than `color`, `clash`, `swing`,
`set_color` returns silently — no exception, no bytes written (the
transport is returned unchanged), and no implicit `SAVE` issued — while
`_get_cmd_for_sound_effect` raises `InvalidSoundEffectSpecifiedException`
for any effect outside its seven recognised kinds. -/
theorem set_color_unknown_effect_silent (effect : String) (bank r g b w : Nat)
    (t : Transport) (h1 : effect ≠ "color") (h2 : effect ≠ "clash")
    (h3 : effect ≠ "swing") :
    set_color bank effect r g b w t = (.ok (), t) ∧
    (effect ≠ "on" → effect ≠ "off" → effect ≠ "hum" →
      effect ≠ "smoothSwingA" → effect ≠ "smoothSwingB" →
      get_cmd_for_sound_effect effect =
        .error (.invalidSoundEffect ("Specified effect: " ++ effect))) := by
  constructor
  · simp [set_color, color_effect_cmd, h1, h2, h3]
  · intro h4 h5 h6 h7 h8
    simp [get_cmd_for_sound_effect, h1, h2, h3, h4, h5, h6, h7, h8]

/-- Witness for C10: the unrecognised effect `"blah"` leaves the transport
untouched in `set_color` and raises in `_get_cmd_for_sound_effect`. -/
theorem set_color_unknown_effect_silent_witness :
    set_color 3 "blah" 1 2 3 4 ⟨[], []⟩ = (.ok (), ⟨[], []⟩) ∧
    get_cmd_for_sound_effect "blah" =
      .error (.invalidSoundEffect ("Specified effect: " ++ "blah")) := by
  have h := set_color_unknown_effect_silent "blah" 3 1 2 3 4 ⟨[], []⟩
    (by decide) (by decide) (by decide)
  exact ⟨h.1, h.2 (by decide) (by decide) (by decide) (by decide) (by decide)⟩

/-! ### Claim C4: the listing parser on line-structured input -/

theorem findAll_skip_inner (line T : List Char) (hnl : '\n' ∉ line) :
    findAll (line ++ '\n' :: T) false = findAll T true := by
  induction line with
  | nil =>
    rw [List.nil_append, findAll_cons_false]
    simp
  | cons c cs ih =>
    rw [List.cons_append, findAll_cons_false]
    have hc : ¬ (c = '\n') := fun h => hnl (h ▸ List.mem_cons_self c cs)
    rw [decide_eq_false hc]
    exact ih (fun h => hnl (List.mem_cons_of_mem c h))

theorem matchAt_nil : matchAt [] = none := by
  simp [matchAt]

theorem matchAt_extend (line T w d : List Char)
    (hm : matchAt line = some (w, d, [])) :
    matchAt (line ++ '\n' :: T) = some (w, d, '\n' :: T) := by
  obtain ⟨w', sp, hw, hl, h1, h2, h3, h4, h5, h6, -⟩ :=
    matchAt_eq_some_iff.mp hm
  refine matchAt_eq_some_iff.mpr
    ⟨w', sp, hw, ?_, h1, h2, h3, h4, h5, h6, Or.inr rfl⟩
  rw [hl]
  simp [List.append_assoc]

theorem findAll_match_step (line T w d : List Char)
    (hm : matchAt line = some (w, d, [])) :
    findAll (line ++ '\n' :: T) true = (w, d) :: findAll T true := by
  have hext := matchAt_extend line T w d hm
  obtain ⟨c, cs, rfl⟩ : ∃ c cs, line = c :: cs := by
    cases line with
    | nil => rw [matchAt_nil] at hm; exact absurd hm (by simp)
    | cons c cs => exact ⟨c, cs, rfl⟩
  rw [List.cons_append] at hext
  rw [List.cons_append, findAll_cons_match c (cs ++ '\n' :: T) w d
    ('\n' :: T) hext, findAll_cons_false]
  simp

theorem tailForm_concat (sp d : List Char)
    (hsp : ∀ a ∈ sp, isSpaceChar a = true) (hd : d ≠ [])
    (hdall : ∀ a ∈ d, isDigitChar a = true) :
    tailFormLine (sp ++ d) = true := by
  obtain ⟨d0, d', rfl⟩ : ∃ d0 d', d = d0 :: d' := by
    cases d with
    | nil => exact absurd rfl hd
    | cons d0 d' => exact ⟨d0, d', rfl⟩
  have hstep := takeWhile_all_append isSpaceChar sp d0 d' hsp
    (digit_not_space (hdall d0 (by simp)))
  simp only [tailFormLine, hstep.2]
  simp only [List.isEmpty_cons, Bool.not_false, Bool.true_and]
  rw [List.all_eq_true]
  exact fun a ha => hdall a ha

theorem lineMatches_of_matchAt {line w d : List Char}
    (hm : matchAt line = some (w, d, [])) : lineMatches line = true := by
  simp [lineMatches, hm]

theorem lineMatches_not_tailForm (line : List Char)
    (h : lineMatches line = true) : tailFormLine line = false := by
  unfold lineMatches at h
  rcases hm : matchAt line with - | ⟨w, d, rest⟩
  · rw [hm] at h
    simp at h
  · rw [hm] at h
    cases rest with
    | cons r rs => simp at h
    | nil =>
      obtain ⟨w', sp, -, hl, -, -, -, -, -, -, -⟩ := matchAt_eq_some_iff.mp hm
      cases htv : tailFormLine line with
      | false => rfl
      | true =>
        exfalso
        have htf : ∀ x ∈ line.dropWhile isSpaceChar, isDigitChar x = true := by
          have h2 := htv
          simp only [tailFormLine, Bool.and_eq_true, List.all_eq_true] at h2
          exact h2.2
        have hdot : ('.' : Char) ∈ line := by
          rw [hl]
          simp
        rw [← List.takeWhile_append_dropWhile isSpaceChar line] at hdot
        rcases List.mem_append.mp hdot with hmem | hmem
        · exact absurd (List.mem_takeWhile_imp hmem) (by decide)
        · exact absurd (htf '.' hmem) (by decide)

theorem joinLines_cons (l : List Char) (ls : List (List Char)) :
    joinLines (l :: ls) = l ++ '\n' :: joinLines ls := by
  simp [joinLines, List.append_assoc]

/-- No text assembled from newline-free lines that are none of them of
whitespace-digits form can split as whitespace, then digits, then an
empty-or-newline-headed remainder: the digit run of a listing match never
ends inside a later physical line. -/
theorem no_ws_digit_split (L : List (List Char)) :
    ∀ (sp d rest : List Char),
      (∀ l ∈ L, '\n' ∉ l ∧ tailFormLine l = false) →
      (∀ a ∈ sp, isSpaceChar a = true) → d ≠ [] →
      (∀ a ∈ d, isDigitChar a = true) →
      (rest = [] ∨ rest.head? = some '\n') →
      joinLines L ≠ sp ++ (d ++ rest) := by
  induction L with
  | nil =>
    intro sp d rest hL hsp hd hda hr heq
    simp only [joinLines, List.map_nil, List.flatten_nil] at heq
    have : d = [] := by
      have h1 := heq.symm
      rcases List.append_eq_nil.mp h1 with ⟨-, h2⟩
      exact (List.append_eq_nil.mp h2).1
    exact hd this
  | cons l ls ih =>
    intro sp d rest hL hsp hd hda hr heq
    rw [joinLines_cons] at heq
    have hl := hL l (by simp)
    have hls : ∀ l' ∈ ls, '\n' ∉ l' ∧ tailFormLine l' = false :=
      fun l' h => hL l' (by simp [h])
    rcases List.append_eq_append_iff.mp heq with ⟨a', ha1, ha2⟩ |
      ⟨c', hc1, hc2⟩
    · cases a' with
      | nil =>
        cases d with
        | nil => exact hd rfl
        | cons d0 d' =>
          simp only [List.nil_append] at ha2
          rw [List.cons_append] at ha2
          injection ha2 with h0 h1
          exact absurd (hda d0 (by simp)) (by rw [← h0]; decide)
      | cons c a'' =>
        rw [List.cons_append] at ha2
        injection ha2 with h0 h1
        have ha''sp : ∀ a ∈ a'', isSpaceChar a = true := by
          intro a haa
          exact hsp a (by rw [ha1]; simp [haa])
        exact ih a'' d rest hls ha''sp hd hda hr h1
    · rcases List.append_eq_append_iff.mp hc2 with ⟨m, hm1, hm2⟩ |
        ⟨m, hm1, hm2⟩
      · cases m with
        | nil =>
          rw [List.append_nil] at hm1
          have hlform : l = sp ++ d := by rw [hc1, hm1]
          have := tailForm_concat sp d hsp hd hda
          rw [← hlform] at this
          exact absurd this (by simp [hl.2])
        | cons q q' =>
          have hq : q = '\n' := by
            rcases hr with h | h
            · rw [hm2] at h
              simp at h
            · rw [hm2] at h
              simp only [List.cons_append, List.head?_cons,
                Option.some.injEq] at h
              exact h
          have hqmem : q ∈ l := by
            rw [hc1, hm1]
            simp
          rw [hq] at hqmem
          exact absurd hqmem hl.1
      · cases m with
        | nil =>
          rw [List.append_nil] at hm1
          have hlform : l = sp ++ d := by rw [hc1, ← hm1]
          have := tailForm_concat sp d hsp hd hda
          rw [← hlform] at this
          exact absurd this (by simp [hl.2])
        | cons q q' =>
          rw [List.cons_append] at hm2
          injection hm2 with h0 h1
          have : q ∈ d := by
            rw [hm1]
            simp
          rw [← h0] at this
          exact absurd (hda '\n' this) (by decide)

/-- At the start of a noise line (one that neither matches in full nor is
of whitespace-digits shape), and with only noise-or-well-formed,
non-tail-form lines following, the pattern cannot match at all — in
particular no match begun here can spill across the newline. -/
theorem matchAt_noise_none (line : List Char) (L : List (List Char))
    (hnl : '\n' ∉ line) (hnm : lineMatches line = false)
    (hL : ∀ l ∈ L, '\n' ∉ l ∧ tailFormLine l = false) :
    matchAt (line ++ '\n' :: joinLines L) = none := by
  cases h : matchAt (line ++ '\n' :: joinLines L) with
  | none => rfl
  | some trip =>
    exfalso
    rcases trip with ⟨w, d, rest⟩
    obtain ⟨w', sp, hw, hl, hw'ne, hw'all, hspne, hspall, hdne, hdall,
      hrest⟩ := matchAt_eq_some_iff.mp h
    have hAnl : '\n' ∉ w' ++ ['.', 'R', 'A', 'W'] := by
      intro hmem
      rcases List.mem_append.mp hmem with hm | hm
      · exact absurd (hw'all _ hm) (by decide)
      · exact absurd hm (by decide)
    have heq : line ++ '\n' :: joinLines L =
        (w' ++ ['.', 'R', 'A', 'W']) ++ (sp ++ (d ++ rest)) := by
      rw [hl]
      simp [List.append_assoc]
    rcases List.append_eq_append_iff.mp heq with ⟨a', ha1, ha2⟩ |
      ⟨c', hc1, hc2⟩
    · cases a' with
      | nil =>
        obtain ⟨s0, sp', rfl⟩ : ∃ s0 sp', sp = s0 :: sp' := by
          cases sp with
          | nil => exact absurd rfl hspne
          | cons s0 sp' => exact ⟨s0, sp', rfl⟩
        simp only [List.nil_append] at ha2
        rw [List.cons_append] at ha2
        injection ha2 with h0 h1
        exact no_ws_digit_split L sp' d rest hL
          (fun a haa => hspall a (by simp [haa])) hdne hdall hrest h1
      | cons c a'' =>
        rw [List.cons_append] at ha2
        injection ha2 with h0 h1
        exact hAnl (by rw [ha1, ← h0]; simp)
    · rcases List.append_eq_append_iff.mp hc2 with ⟨m, hm1, hm2⟩ |
        ⟨m, hm1, hm2⟩
      · rcases List.append_eq_append_iff.mp hm2 with ⟨q, hq1, hq2⟩ |
          ⟨q, hq1, hq2⟩
        · cases q with
          | nil =>
            rw [List.append_nil] at hq1
            have hline : line =
                w' ++ ['.', 'R', 'A', 'W'] ++ sp ++ d ++ ([] : List Char) := by
              rw [hc1, hm1, hq1]
              simp [List.append_assoc]
            have hm : matchAt line =
                some (w' ++ ['.', 'R', 'A', 'W'], d, []) :=
              matchAt_eq_some_iff.mpr ⟨w', sp, rfl, hline, hw'ne, hw'all,
                hspne, hspall, hdne, hdall, Or.inl rfl⟩
            rw [lineMatches_of_matchAt hm] at hnm
            exact absurd hnm (by decide)
          | cons qc q' =>
            have hqc : qc = '\n' := by
              rcases hrest with hr | hr
              · rw [hq2] at hr
                simp at hr
              · rw [hq2] at hr
                simp only [List.cons_append, List.head?_cons,
                  Option.some.injEq] at hr
                exact hr
            have : '\n' ∈ line := by
              rw [hc1, hm1, hq1, ← hqc]
              simp
            exact hnl this
        · cases q with
          | nil =>
            rw [List.append_nil] at hq1
            have hline : line =
                w' ++ ['.', 'R', 'A', 'W'] ++ sp ++ d ++ ([] : List Char) := by
              rw [hc1, hm1, hq1]
              simp [List.append_assoc]
            have hm : matchAt line =
                some (w' ++ ['.', 'R', 'A', 'W'], d, []) :=
              matchAt_eq_some_iff.mpr ⟨w', sp, rfl, hline, hw'ne, hw'all,
                hspne, hspall, hdne, hdall, Or.inl rfl⟩
            rw [lineMatches_of_matchAt hm] at hnm
            exact absurd hnm (by decide)
          | cons qc q' =>
            rw [List.cons_append] at hq2
            injection hq2 with h0 h1
            have hmemd : qc ∈ d := by
              rw [hq1]
              simp
            rw [← h0] at hmemd
            exact absurd (hdall '\n' hmemd) (by decide)
      · cases m with
        | nil =>
          rw [List.append_nil] at hm1
          obtain ⟨d0, d', rfl⟩ : ∃ d0 d', d = d0 :: d' := by
            cases d with
            | nil => exact absurd rfl hdne
            | cons d0 d' => exact ⟨d0, d', rfl⟩
          simp only [List.nil_append] at hm2
          rw [List.cons_append] at hm2
          injection hm2 with h0 h1
          exact absurd (hdall d0 (by simp)) (by rw [← h0]; decide)
        | cons mc m' =>
          rw [List.cons_append] at hm2
          injection hm2 with h0 h1
          exact no_ws_digit_split L m' d rest hL
            (fun a haa => hspall a (by rw [hm1]; simp [haa])) hdne hdall
            hrest h1

theorem lineCapture_eq_none (l : List Char) (h : lineMatches l = false) :
    lineCapture l = none := by
  unfold lineCapture
  unfold lineMatches at h
  rcases hm : matchAt l with - | ⟨w, d, rest⟩
  · rfl
  · rw [hm] at h
    cases rest with
    | nil => simp at h
    | cons r rs => rfl

/-- The scan over a newline-joined list of lines, each well formed or
noise, yields exactly the captures of the well-formed lines, in order. -/
theorem findAll_joinLines (L : List (List Char))
    (hL : ∀ l ∈ L, '\n' ∉ l ∧ (lineMatches l = true ∨ noiseLine l = true)) :
    findAll (joinLines L) true = L.filterMap lineCapture := by
  induction L with
  | nil => simp [joinLines, findAll_nil]
  | cons l ls ih =>
    rw [joinLines_cons]
    have hl := hL l (by simp)
    have hls : ∀ l' ∈ ls, '\n' ∉ l' ∧
        (lineMatches l' = true ∨ noiseLine l' = true) :=
      fun l' h => hL l' (List.mem_cons_of_mem l h)
    have hlsn : ∀ l' ∈ ls, '\n' ∉ l' ∧ tailFormLine l' = false := by
      intro l' h
      refine ⟨(hls l' h).1, ?_⟩
      rcases (hls l' h).2 with hm | hn
      · exact lineMatches_not_tailForm l' hm
      · simp only [noiseLine, Bool.and_eq_true, Bool.not_eq_true'] at hn
        exact hn.2
    rcases hl.2 with hm | hn
    · obtain ⟨w, d, hmt⟩ : ∃ w d, matchAt l = some (w, d, []) := by
        unfold lineMatches at hm
        rcases hmm : matchAt l with - | ⟨w, d, rest⟩
        · rw [hmm] at hm
          simp at hm
        · rw [hmm] at hm
          cases rest with
          | nil => exact ⟨w, d, rfl⟩
          | cons r rs => simp at hm
      rw [findAll_match_step l (joinLines ls) w d hmt, ih hls,
        List.filterMap_cons]
      simp [lineCapture, hmt]
    · have hnB : lineMatches l = false ∧ tailFormLine l = false := by
        simpa only [noiseLine, Bool.and_eq_true, Bool.not_eq_true'] using hn
      have hnone := matchAt_noise_none l ls hl.1 hnB.1 hlsn
      have hskip : findAll (l ++ '\n' :: joinLines ls) true =
          findAll (joinLines ls) true := by
        cases hlc : l with
        | nil =>
          rw [List.nil_append,
            findAll_cons_nomatch '\n' (joinLines ls)
              (by simpa [hlc] using hnone)]
          simp
        | cons c cs =>
          rw [List.cons_append,
            findAll_cons_nomatch c (cs ++ '\n' :: joinLines ls)
              (by simpa [hlc] using hnone)]
          have hc : ¬ (c = '\n') := fun hcc => hl.1 (by simp [hlc, hcc])
          rw [decide_eq_false hc]
          exact findAll_skip_inner cs (joinLines ls)
            (fun hcc => hl.1 (by simp [hlc, hcc]))
      rw [hskip, ih hls, List.filterMap_cons, lineCapture_eq_none l hnB.1]

theorem dictInsert_fresh (m : List (String × Int)) (k : String) (v : Int)
    (h : ∀ p ∈ m, p.1 ≠ k) : dictInsert m k v = m ++ [(k, v)] := by
  unfold dictInsert
  have hnc : ¬ ((m.any fun p => p.1 = k) = true) := by
    intro hcon
    obtain ⟨p, hp, hpk⟩ := List.any_eq_true.mp hcon
    exact h p hp (of_decide_eq_true hpk)
  rw [if_neg hnc]

/-- Folding fresh, key-distinct entries into the dictionary appends them
in order. -/
theorem foldl_dictInsert (es : List (String × Int)) :
    ∀ m : List (String × Int), (es.map Prod.fst).Nodup →
      (∀ e ∈ es, ∀ p ∈ m, p.1 ≠ e.1) →
      es.foldl (fun acc e => dictInsert acc e.1 e.2) m = m ++ es := by
  induction es with
  | nil =>
    intro m h1 h2
    simp
  | cons e es ih =>
    intro m h1 h2
    simp only [List.foldl_cons]
    rw [dictInsert_fresh m e.1 e.2 (fun p hp => h2 e (by simp) p hp)]
    rw [List.map_cons] at h1
    have hnd := List.nodup_cons.mp h1
    rw [ih (m ++ [e]) hnd.2 ?_]
    · simp
    · intro e' he' p hp
      rcases List.mem_append.mp hp with hp | hp
      · exact h2 e' (by simp [he']) p hp
      · simp only [List.mem_singleton] at hp
        subst hp
        intro hcon
        exact hnd.1 (hcon ▸ List.mem_map_of_mem Prod.fst he')

/-- The parsing phase on well-formed-or-noise lines with pairwise distinct
filenames: the dictionary is exactly the list of well-formed entries. -/
theorem parse_file_list_joinLines (L : List (List Char))
    (hL : ∀ l ∈ L, '\n' ∉ l ∧ (lineMatches l = true ∨ noiseLine l = true))
    (hnd : ((L.filterMap lineEntry).map Prod.fst).Nodup) :
    parse_file_list (joinLines L) = L.filterMap lineEntry := by
  unfold parse_file_list
  rw [findAll_joinLines L hL]
  have hmap : L.filterMap lineEntry = (L.filterMap lineCapture).map
      (fun e => (String.mk e.1, (digitsToNat e.2 : Int))) := by
    rw [List.map_filterMap]
    rfl
  have hfold : (L.filterMap lineCapture).foldl
      (fun m e => dictInsert m (String.mk e.1) (digitsToNat e.2 : Int)) [] =
      ((L.filterMap lineCapture).map
        (fun e => (String.mk e.1, (digitsToNat e.2 : Int)))).foldl
        (fun acc e => dictInsert acc e.1 e.2) [] := by
    rw [List.foldl_map]
  rw [hfold, ← hmap, foldl_dictInsert (L.filterMap lineEntry) [] hnd
    (by simp)]
  simp

theorem char_toNat_inj {c d : Char} (h : c.toNat = d.toNat) : c = d :=
  Char.ext (UInt32.ext h)

theorem encodeLine_etx_iff (l : List Char) :
    ([3, 10].isSuffixOf (encodeLine l) = true) ↔ l.getLast? = some '\x03' := by
  rw [List.isSuffixOf_iff_suffix]
  constructor
  · rintro ⟨t, ht⟩
    have ht2 : t ++ [3] ++ [10] = l.map Char.toNat ++ [10] := by
      simpa [List.append_assoc] using ht
    have ht3 : t ++ [3] = l.map Char.toNat := List.append_cancel_right ht2
    have hlast : (l.map Char.toNat).getLast? = some 3 := by
      rw [← ht3]
      exact List.getLast?_concat t
    rw [List.getLast?_map] at hlast
    cases hg : l.getLast? with
    | none => rw [hg] at hlast; simp at hlast
    | some c =>
      rw [hg] at hlast
      simp at hlast
      rw [char_toNat_inj (show c.toNat = ('\x03' : Char).toNat from hlast)]
  · intro h
    obtain ⟨l', rfl⟩ := List.getLast?_eq_some_iff.mp h
    refine ⟨l'.map Char.toNat, ?_⟩
    show l'.map Char.toNat ++ [3, 10] = encodeLine (l' ++ ['\x03'])
    unfold encodeLine
    simp

/-- The accumulation loop of `list_files_on_saber_as_bytes` on a script of
encoded lines, of which exactly the last carries the ETX marker. -/
theorem read_list_go_lines (B : List (List Char)) (e : List Char)
    (rest : List (Except Unit Bytes)) :
    ∀ acc : Bytes, (∀ l ∈ B, l.getLast? ≠ some '\x03') →
      e.getLast? = some '\x03' →
      read_list_go acc
          (((B ++ [e]).map (fun l => Except.ok (encodeLine l))) ++ rest) =
        (.ok (acc ++ ((B ++ [e]).map encodeLine).flatten), rest) := by
  induction B with
  | nil =>
    intro acc hB he
    simp only [List.nil_append, List.map_cons, List.map_nil,
      List.cons_append, read_list_go]
    rw [if_pos ((encodeLine_etx_iff e).mpr he)]
    simp
  | cons b B' ih =>
    intro acc hB he
    simp only [List.cons_append, List.map_cons, read_list_go]
    rw [if_neg (fun hcon => (hB b (by simp))
      ((encodeLine_etx_iff b).mp hcon))]
    simp only [List.append_eq]
    rw [ih (acc ++ encodeLine b) (fun l hl => hB l (by simp [hl])) he]
    simp [List.append_assoc]

theorem decode_encode_join (L : List (List Char)) :
    decode ((L.map encodeLine).flatten) = joinLines L := by
  induction L with
  | nil => simp [decode, joinLines]
  | cons l ls ih =>
    simp only [List.map_cons, List.flatten_cons, joinLines_cons]
    rw [show decode (encodeLine l ++ (ls.map encodeLine).flatten) =
      decode (encodeLine l) ++ decode ((ls.map encodeLine).flatten) from by
        simp [decode]]
    rw [ih]
    have : decode (encodeLine l) = l ++ ['\n'] := by
      simp only [decode, encodeLine, List.map_append, List.map_map]
      rw [show (Char.ofNat ∘ Char.toNat) = id from funext
        (fun c => Char.ofNat_toNat c)]
      simp
    rw [this]
    simp

/-- C4 (amended): for a device response assembled from newline-terminated
lines — each either a well-formed `NAME.RAW <size>` entry or noise that
neither matches nor consists of whitespace followed by digits — with the
final line alone carrying the ETX marker and the well-formed filenames
pairwise distinct, `list_files_on_saber` consumes the lines up to the
ETX-LF terminator and returns exactly the well-formed entries with their
integer sizes; every noise line is silently excluded. -/
theorem list_files_on_saber_wellformed (B : List (List Char))
    (e : List Char) (w : Bytes) (rest : List (Except Unit Bytes))
    (hlines : ∀ l ∈ B ++ [e], '\n' ∉ l ∧
      (lineMatches l = true ∨ noiseLine l = true))
    (hB : ∀ l ∈ B, l.getLast? ≠ some '\x03')
    (he : e.getLast? = some '\x03')
    (hnd : (((B ++ [e]).filterMap lineEntry).map Prod.fst).Nodup) :
    list_files_on_saber
        ⟨.ok (ascii "OK, Write Ready\n") ::
          ((B ++ [e]).map (fun l => .ok (encodeLine l)) ++ rest), w⟩ =
      (.ok ((B ++ [e]).filterMap lineEntry),
        ⟨rest, w ++ ascii "WR?\n" ++ ascii "LIST?\n"⟩) := by
  unfold list_files_on_saber list_files_on_saber_as_bytes saber_is_ready
  rw [send_command_written, show withNL (ascii "WR?") = ascii "WR?\n" from rfl]
  simp only [read_line, write_reads, write_written, decide_True]
  rw [send_command_written,
    show withNL (ascii "LIST?") = ascii "LIST?\n" from rfl]
  unfold read_list_loop
  simp only [write_reads, write_written]
  rw [read_list_go_lines B e rest [] hB he]
  simp only [List.nil_append]
  rw [decode_encode_join, parse_file_list_joinLines (B ++ [e]) hlines hnd]

/-- Witness for C4's amended theorem: a three-line listing — a noise
header, one well-formed entry, and the ETX line — yields exactly the one
entry. -/
theorem list_files_on_saber_wellformed_witness :
    list_files_on_saber
        ⟨.ok (ascii "OK, Write Ready\n") ::
          (([("Listing sounds").data, ("POWERON.RAW 100").data] ++
              [[('\x03' : Char)]]).map (fun l => .ok (encodeLine l)) ++ []),
          []⟩ =
      (.ok [("POWERON.RAW", (100 : Int))],
        ⟨[], [] ++ ascii "WR?\n" ++ ascii "LIST?\n"⟩) := by
  rw [list_files_on_saber_wellformed
    [("Listing sounds").data, ("POWERON.RAW 100").data] [('\x03' : Char)]
    [] [] (by decide) (by decide) (by decide) (by decide)]
  decide

/-- C4 counterexample: the claim quantifies over responses whose noise
lines are merely non-matching, but `\s+` in the MULTILINE pattern may
cross a newline: the two non-matching lines `A.RAW` and `5` combine into
a match, so the returned mapping contains an entry although the response
contains no well-formed line at all. -/
theorem list_files_counterexample :
    ([("A.RAW").data, ("5").data, [('\x03' : Char)]].all
        (fun l => ! lineMatches l)) = true ∧
    (list_files_on_saber
        ⟨[.ok (ascii "OK, Write Ready\n"),
          .ok (encodeLine ("A.RAW").data), .ok (encodeLine ("5").data),
          .ok (encodeLine [('\x03' : Char)])], []⟩).1 =
      .ok [("A.RAW", (5 : Int))] := by
  constructor
  · decide
  · decide

end PySaber
